import Mathlib

/-!
Verification of the B2B marketplace brand-protection scraper
(`scraper1_app.py`).

Strings are modelled as `List Char`; Python's `str.lower`, substring
containment (`in`), `str.split()`, and `str.strip()` are embedded as
executable functions below.  `difflib.SequenceMatcher.ratio()` is embedded
exactly (without the autojunk heuristic, which never fires on strings
shorter than 200 characters): the recursive matching-blocks total `2*M/T`
is represented by natural-number arithmetic, and the floating comparison
`ratio * 100 >= threshold` is modelled by the exact rational comparison
`threshold * T <= 200 * M`.

The scraping pipeline's interaction with the browser is abstracted as an
oracle: each task either fails with an error message or yields a page,
a function from CSS selector to the list of candidate anchor elements.
Everything downstream of that oracle (domain filter, brand matching,
capped deduplicating collection, per-task error handling, progress
accounting) is embedded from the source.
-/

namespace Scraper

/-- Python `str.lower()` (ASCII case fold), on `List Char`. -/
def lower (s : List Char) : List Char := s.map Char.toLower

/-- `pre` is a prefix of `s` (helper for substring containment). -/
def startsWith : List Char → List Char → Bool
  | [], _ => true
  | _ :: _, [] => false
  | a :: as, b :: bs => a = b && startsWith as bs

/-- Python's `needle in hay` for strings: substring containment. -/
def pyIn (needle : List Char) : List Char → Bool
  | [] => startsWith needle []
  | c :: rest => startsWith needle (c :: rest) || pyIn needle rest

/-- A character Python's `str.split()` treats as whitespace (ASCII part). -/
def isSpace (c : Char) : Bool :=
  c = ' ' || c = '\t' || c = '\n' || c = '\x0d' || c = '\x0b' || c = '\x0c'

/-- Auxiliary for `pySplit`: `acc` holds the current word reversed. -/
def pySplitAux : List Char → List Char → List (List Char)
  | acc, [] => if acc.isEmpty then [] else [acc.reverse]
  | acc, c :: rest =>
    if isSpace c then
      if acc.isEmpty then pySplitAux [] rest
      else acc.reverse :: pySplitAux [] rest
    else pySplitAux (c :: acc) rest

/-- Python `str.split()` with no arguments: whitespace-delimited tokens,
empty tokens discarded. -/
def pySplit (s : List Char) : List (List Char) := pySplitAux [] s

/-- Python `str.strip()`: drop leading and trailing whitespace. -/
def pyStrip (s : List Char) : List Char :=
  ((s.dropWhile isSpace).reverse.dropWhile isSpace).reverse

/-- Length of the longest common prefix of two character lists. -/
def commonLen : List Char → List Char → Nat
  | a :: as, b :: bs => if a = b then commonLen as bs + 1 else 0
  | _, _ => 0

/-- One row of `SequenceMatcher.find_longest_match`'s search: scan all
start positions `j` in `b` against the fixed start `i` in `a`, keeping the
incumbent `(i, j, size)` triple unless a strictly longer block appears. -/
def bestMatchRow (a b : List Char) (i : Nat) (best : Nat × Nat × Nat) :
    Nat × Nat × Nat :=
  (List.range b.length).foldl (fun acc j =>
    let k := commonLen (a.drop i) (b.drop j)
    if acc.2.2 < k then (i, j, k) else acc) best

/-- `SequenceMatcher.find_longest_match` over the whole of `a` and `b`
(no junk): the longest matching block, earliest in `a` then earliest in
`b` among maximal ones, as a `(start in a, start in b, size)` triple. -/
def findLongestMatch (a b : List Char) : Nat × Nat × Nat :=
  (List.range a.length).foldl (fun acc i => bestMatchRow a b i acc) (0, 0, 0)

/-- Fuelled recursion of `get_matching_blocks`: total size `M` of all
matching blocks, recursing left and right of the longest match. Fuel
`a.length` always suffices because each recursive call strictly shrinks
the first list. -/
def matchTotalFuel : Nat → List Char → List Char → Nat
  | 0, _, _ => 0
  | fuel + 1, a, b =>
    let t := findLongestMatch a b
    if t.2.2 = 0 then 0
    else
      matchTotalFuel fuel (a.take t.1) (b.take t.2.1) + t.2.2 +
        matchTotalFuel fuel (a.drop (t.1 + t.2.2)) (b.drop (t.2.1 + t.2.2))

/-- Total number `M` of matched characters reported by
`SequenceMatcher.get_matching_blocks` for `(a, b)`. -/
def matchTotal (a b : List Char) : Nat := matchTotalFuel a.length a b

/-- Exact test `SequenceMatcher(None, a, b).ratio() * 100 >= t`:
`ratio = 2*M/T` with `T = len a + len b` (and `1.0` when `T = 0`), so the
comparison is `t * T <= 200 * M`, in exact rational arithmetic. -/
def simGe (t : Nat) (a b : List Char) : Bool :=
  if a.length + b.length = 0 then t ≤ 100
  else t * (a.length + b.length) ≤ 200 * matchTotal a b

/-- `fuzzy_match_brand(text, brand_name, threshold)` from the source, with
the global `fuzzy_enabled` flag made an explicit parameter. -/
def fuzzy_match_brand (fuzzy_enabled : Bool) (text brand_name : List Char)
    (threshold : Nat) : Bool :=
  if fuzzy_enabled = false then pyIn (lower brand_name) (lower text)
  else
    let text_lower := lower text
    let brand_lower := lower brand_name
    if pyIn brand_lower text_lower then true
    else
      (pySplit text_lower).any fun word =>
        decide (3 ≤ word.length) && simGe threshold brand_lower word

/-- One site's descriptor from `get_site_configs` (the `url_template`
string is elided: the page fetch is abstracted by an oracle below, and no
other part of the pipeline reads it). -/
structure SiteConfig where
  name : List Char
  url_encoding : List Char
  product_selector : List Char
  brand_in_url : Bool
  domain_check : List Char
  additional_selectors : List (List Char)
deriving DecidableEq

/-- The Alibaba entry of `get_site_configs`. -/
def alibabaConfig : SiteConfig :=
  { name := "Alibaba".toList
    url_encoding := "%20".toList
    product_selector := "a[href*=\x22/product-detail/\x22]".toList
    brand_in_url := true
    domain_check := "alibaba.com".toList
    additional_selectors := [] }

/-- The DHgate entry of `get_site_configs`. -/
def dhgateConfig : SiteConfig :=
  { name := "DHgate".toList
    url_encoding := "+".toList
    product_selector := "a[href*=\x22/product/\x22]".toList
    brand_in_url := false
    domain_check := "dhgate.com".toList
    additional_selectors := [] }

/-- The Made-in-China entry of `get_site_configs`. -/
def madeInChinaConfig : SiteConfig :=
  { name := "Made-in-China".toList
    url_encoding := "-".toList
    product_selector := "a[href*=\x22/product/\x22]".toList
    brand_in_url := false
    domain_check := "made-in-china.com".toList
    additional_selectors :=
      ["a[href*=\x22/prod/\x22]".toList, ".item-link a".toList,
        ".product-item a".toList] }

/-- All three site profiles, in the source dictionary's order. -/
def allConfigs : List SiteConfig :=
  [alibabaConfig, dhgateConfig, madeInChinaConfig]

/-- `get_site_configs()`: the subset of profiles whose name is active. -/
def get_site_configs (active : List (List Char)) : List SiteConfig :=
  allConfigs.filter fun c => c.name ∈ active

/-- Python `search_term.replace(' ', enc)`. -/
def replaceSpace (enc : List Char) (s : List Char) : List Char :=
  (s.map fun c => if c = ' ' then enc else [c]).flatten

/-- The search-term encoding step of `run_scraper`: hyphen separator also
lowercases; any other separator only replaces spaces. -/
def formattedTerm (cfg : SiteConfig) (searchTerm : List Char) : List Char :=
  if cfg.url_encoding = ['-'] then lower (replaceSpace ['-'] searchTerm)
  else replaceSpace cfg.url_encoding searchTerm

/-- A candidate anchor element as read from the page: `href`, visible
text, `title` attribute, `alt` attribute (`none` models a null
attribute). -/
structure Candidate where
  href : Option (List Char)
  text : List Char
  title : Option (List Char)
  alt : Option (List Char)
deriving DecidableEq

/-- One row of the final result table. -/
structure MatchResult where
  brand : List Char
  keyword : List Char
  site : List Char
  productURL : List Char
  scrapedAt : List Char
deriving DecidableEq

/-- The `should_add` decision of `run_scraper` for one candidate that has
already passed the domain filter: URL-based sites fuzzy-match the brand
against the href; text-based sites fuzzy-match against
`"{text} {title} {alt}"` but accept unconditionally when fuzzy matching
is globally disabled. -/
def shouldAdd (fuzzy_enabled : Bool) (threshold : Nat) (cfg : SiteConfig)
    (brand : List Char) (c : Candidate) (href : List Char) : Bool :=
  if cfg.brand_in_url then fuzzy_match_brand fuzzy_enabled href brand threshold
  else
    let link_text := pyStrip c.text
    let title_attr := c.title.getD []
    let alt_attr := c.alt.getD []
    let combined_text := link_text ++ [' '] ++ title_attr ++ [' '] ++ alt_attr
    let s := fuzzy_match_brand fuzzy_enabled combined_text brand threshold
    if fuzzy_enabled = false then true else s

/-- `unique_links.add(href)`: a Python set modelled as a duplicate-free
list in insertion order. -/
def addSet (s : List (List Char)) (x : List Char) : List (List Char) :=
  if x ∈ s then s else s ++ [x]

/-- The candidate loop of `run_scraper`: skip candidates with a falsy
href or whose href lacks the domain substring; add accepted hrefs to the
set; after processing each domain-passing candidate, stop as soon as the
set has reached `cap` (`max_links_per_site`). -/
def collectLinks (fuzzy_enabled : Bool) (threshold : Nat) (cfg : SiteConfig)
    (brand : List Char) (cap : Nat) :
    List Candidate → List (List Char) → List (List Char)
  | [], s => s
  | c :: rest, s =>
    match c.href with
    | none => collectLinks fuzzy_enabled threshold cfg brand cap rest s
    | some href =>
      if !href.isEmpty && pyIn cfg.domain_check href then
        let s' := if shouldAdd fuzzy_enabled threshold cfg brand c href
          then addSet s href else s
        if cap ≤ s'.length then s'
        else collectLinks fuzzy_enabled threshold cfg brand cap rest s'
      else collectLinks fuzzy_enabled threshold cfg brand cap rest s

/-- Link extraction: query the primary selector; only when it returns no
elements and the profile has fallback selectors, query every fallback in
order and append all their results. -/
def extractLinks (page : List Char → List Candidate) (cfg : SiteConfig) :
    List Candidate :=
  let links := page cfg.product_selector
  if links.isEmpty && !cfg.additional_selectors.isEmpty then
    links ++ (cfg.additional_selectors.map page).flatten
  else links

/-- Outcome of the browser interaction for one task: an error message
(any navigation, script-execution or extraction failure inside the `try`
block), or the loaded page as a selector-to-candidates function. -/
def PageOracle : Type :=
  List Char → List Char → List Char → Except (List Char) (List Char → List Candidate)

/-- One (brand, keyword, site) task: on error, zero rows and one warning
`(site name, message)`; on success, one row per collected href, stamped
with `now`. -/
def runTask (pg : Except (List Char) (List Char → List Candidate))
    (fuzzy_enabled : Bool) (threshold cap : Nat) (cfg : SiteConfig)
    (brand keyword now : List Char) :
    List MatchResult × List (List Char × List Char) :=
  match pg with
  | .error e => ([], [(cfg.name, e)])
  | .ok page =>
    let links := extractLinks page cfg
    let accepted := collectLinks fuzzy_enabled threshold cfg brand cap links []
    (accepted.map fun h =>
      { brand := brand, keyword := keyword, site := cfg.name,
        productURL := h, scrapedAt := now }, [])

/-- The inner site loop of `run_scraper`, with the growing `results` list
and warning log as explicit accumulators. -/
def scrapeSites (exec : PageOracle) (fuzzy_enabled : Bool)
    (threshold cap : Nat) (brand keyword now : List Char) :
    List SiteConfig → List MatchResult × List (List Char × List Char) →
      List MatchResult × List (List Char × List Char)
  | [], acc => acc
  | cfg :: rest, acc =>
    let out := runTask (exec cfg.name brand keyword) fuzzy_enabled threshold cap
      cfg brand keyword now
    scrapeSites exec fuzzy_enabled threshold cap brand keyword now rest
      (acc.1 ++ out.1, acc.2 ++ out.2)

/-- The keyword loop of `run_scraper`. -/
def scrapeKeywords (exec : PageOracle) (fuzzy_enabled : Bool)
    (threshold cap : Nat) (brand now : List Char) (sites : List SiteConfig) :
    List (List Char) → List MatchResult × List (List Char × List Char) →
      List MatchResult × List (List Char × List Char)
  | [], acc => acc
  | kw :: rest, acc =>
    scrapeKeywords exec fuzzy_enabled threshold cap brand now sites rest
      (scrapeSites exec fuzzy_enabled threshold cap brand kw now sites acc)

/-- One row of the uploaded table: the `Brand` cell and the cells of the
keyword columns (`none` models a missing / NaN cell). -/
structure InputRow where
  brand : List Char
  cells : List (Option (List Char))
deriving DecidableEq

/-- `keywords = [str(row[col]) for col in row.index if 'Keyword' in col
and pd.notna(row[col])]`: the present keyword cells, in column order. -/
def rowKeywords (r : InputRow) : List (List Char) := r.cells.filterMap id

/-- The outer brand loop of `run_scraper`. -/
def scrapeRows (exec : PageOracle) (fuzzy_enabled : Bool)
    (threshold cap : Nat) (now : List Char) (sites : List SiteConfig) :
    List InputRow → List MatchResult × List (List Char × List Char) →
      List MatchResult × List (List Char × List Char)
  | [], acc => acc
  | r :: rest, acc =>
    scrapeRows exec fuzzy_enabled threshold cap now sites rest
      (scrapeKeywords exec fuzzy_enabled threshold cap r.brand now sites
        (rowKeywords r) acc)

/-- `run_scraper`'s result table (the warning log dropped). -/
def runScraper (exec : PageOracle) (fuzzy_enabled : Bool)
    (threshold cap : Nat) (now : List Char) (sites : List SiteConfig)
    (rows : List InputRow) : List MatchResult :=
  (scrapeRows exec fuzzy_enabled threshold cap now sites rows ([], [])).1

/-- `total_operations = len(df_input) * len(keyword columns) * len(sites)`:
counts every row and every keyword column, missing cells included. -/
def total_operations (rows : List InputRow) (ncols nsites : Nat) : Nat :=
  rows.length * ncols * nsites

/-- The final value of `current_operation`: each row contributes one
increment per present keyword cell per site. -/
def executedTasks (rows : List InputRow) (nsites : Nat) : Nat :=
  (rows.map fun r => (rowKeywords r).length * nsites).sum

/-- The progress fraction reported on the last executed task:
`current_operation / total_operations` at the end of the run. -/
def finalProgress (rows : List InputRow) (ncols nsites : Nat) : ℚ :=
  (executedTasks rows nsites : ℚ) / (total_operations rows ncols nsites : ℚ)

/-- Modelled from the spec: the task-count formula the spec states,
`|brands-with-at-least-one-keyword| x |keywords per brand| x |active
sites|` with keywords of missing cells skipped — i.e. each brand that has
at least one present keyword contributes its own present-keyword count,
times the number of active sites. -/
def specTaskCount (rows : List InputRow) (nsites : Nat) : Nat :=
  (((rows.filter fun r => !(rowKeywords r).isEmpty).map
    fun r => (rowKeywords r).length).sum) * nsites

/-- Monotonicity of the exact similarity comparison in the threshold. -/
theorem simGe_antitone {t t' : Nat} (a b : List Char) (hle : t' ≤ t)
    (h : simGe t a b = true) : simGe t' a b = true := by
  unfold simGe at h ⊢
  by_cases hz : a.length + b.length = 0
  · rw [if_pos hz] at h ⊢
    exact decide_eq_true (le_trans hle (of_decide_eq_true h))
  · rw [if_neg hz] at h ⊢
    rw [decide_eq_true_eq] at h
    exact decide_eq_true (le_trans (Nat.mul_le_mul_right _ hle) h)

/-- C3: for every text, brand and threshold, with fuzzy matching enabled
or disabled, if the lowercased brand is a literal substring of the
lowercased text then `fuzzy_match_brand` returns true. -/
theorem fuzzy_match_substring_always (enabled : Bool) (text brand : List Char)
    (t : Nat) (h : pyIn (lower brand) (lower text) = true) :
    fuzzy_match_brand enabled text brand t = true := by
  cases enabled <;> simp [fuzzy_match_brand, h]

/-- Witness for C3 at a concrete input: `"cme"` is a case-insensitive
substring of `"Acme shoes"`, and the matcher accepts at threshold 95. -/
theorem fuzzy_match_substring_always_witness :
    pyIn (lower "cme".toList) (lower "Acme shoes".toList) = true ∧
      fuzzy_match_brand true "Acme shoes".toList "cme".toList 95 = true :=
  ⟨by decide, fuzzy_match_substring_always true "Acme shoes".toList "cme".toList 95
    (by decide)⟩

/-- C4: with fuzzy matching disabled, `fuzzy_match_brand` returns true
exactly when the lowercased brand is a literal substring of the lowercased
text, for every threshold. -/
theorem fuzzy_match_disabled_iff (text brand : List Char) (t : Nat) :
    fuzzy_match_brand false text brand t = true ↔
      pyIn (lower brand) (lower text) = true := by
  simp [fuzzy_match_brand]

/-- Helper: with fuzzy matching enabled and no substring fast path, the
matcher is the token scan. -/
theorem fuzzy_enabled_any (text brand : List Char) (t : Nat)
    (h : pyIn (lower brand) (lower text) = false) :
    (fuzzy_match_brand true text brand t = true ↔
      ∃ w ∈ pySplit (lower text), 3 ≤ w.length ∧ simGe t (lower brand) w = true) := by
  simp [fuzzy_match_brand, h, List.any_eq_true, Bool.and_eq_true,
    decide_eq_true_eq, and_assoc]

/-- C5: with fuzzy matching enabled and the lowercased brand not a
substring of the lowercased text, the matcher returns true exactly when
some whitespace token of the lowercased text of length at least 3 has
`SequenceMatcher` similarity `ratio * 100 >= threshold` against the
lowercased brand (the scan over tokens, `List.any`, short-circuits at the
first qualifying token). -/
theorem fuzzy_match_enabled_token_iff (text brand : List Char) (t : Nat)
    (h : pyIn (lower brand) (lower text) = false) :
    (fuzzy_match_brand true text brand t = true ↔
      ∃ w ∈ pySplit (lower text), 3 ≤ w.length ∧ simGe t (lower brand) w = true) :=
  fuzzy_enabled_any text brand t h

/-- Witness for C5 at a concrete input: `"acme"` is not a substring of
`"xyz akme"`, and the token `"akme"` (similarity 75) qualifies at
threshold 70, so the matcher accepts. -/
theorem fuzzy_match_enabled_token_iff_witness :
    pyIn (lower "acme".toList) (lower "xyz akme".toList) = false ∧
      fuzzy_match_brand true "xyz akme".toList "acme".toList 70 = true :=
  ⟨by decide,
    (fuzzy_match_enabled_token_iff "xyz akme".toList "acme".toList 70
      (by decide)).mpr ⟨"akme".toList, by decide, by decide, by decide⟩⟩

/-- C10: with fuzzy matching enabled, `fuzzy_match_brand` is antitone in
the threshold: a text/brand pair accepted at threshold `t` is accepted at
every threshold `t' ≤ t`. -/
theorem fuzzy_match_threshold_antitone (text brand : List Char) (t t' : Nat)
    (hle : t' ≤ t) (h : fuzzy_match_brand true text brand t = true) :
    fuzzy_match_brand true text brand t' = true := by
  by_cases hfast : pyIn (lower brand) (lower text) = true
  · simp [fuzzy_match_brand, hfast]
  · rw [Bool.not_eq_true] at hfast
    rw [fuzzy_enabled_any text brand t hfast] at h
    rw [fuzzy_enabled_any text brand t' hfast]
    obtain ⟨w, hw, hlen, hsim⟩ := h
    exact ⟨w, hw, hlen, simGe_antitone _ _ hle hsim⟩

/-- Witness for C10 at a concrete input: accepted at threshold 75, hence
accepted at the smaller threshold 70. -/
theorem fuzzy_match_threshold_antitone_witness :
    (70 ≤ 75 ∧ fuzzy_match_brand true "xyz akme".toList "acme".toList 75 = true) ∧
      fuzzy_match_brand true "xyz akme".toList "acme".toList 70 = true :=
  ⟨⟨by decide, by decide⟩,
    fuzzy_match_threshold_antitone "xyz akme".toList "acme".toList 75 70
      (by decide) (by decide)⟩

/-- C1: with fuzzy matching globally disabled, a candidate whose href
contains the site's domain substring is accepted iff the lowercased brand
is a literal substring of the lowercased href when the profile requires
the brand in the URL, and unconditionally when it does not. -/
theorem shouldAdd_fuzzy_disabled_spec (t : Nat) (cfg : SiteConfig)
    (brand : List Char) (c : Candidate) (href : List Char)
    (_hdom : pyIn cfg.domain_check href = true) :
    (cfg.brand_in_url = true →
      (shouldAdd false t cfg brand c href = true ↔
        pyIn (lower brand) (lower href) = true)) ∧
    (cfg.brand_in_url = false → shouldAdd false t cfg brand c href = true) := by
  constructor <;> intro hb <;> simp [shouldAdd, hb, fuzzy_match_brand]

/-- Witness for C1 at concrete inputs: an Alibaba href containing the
brand is accepted, and a DHgate candidate is accepted with no brand in
sight. -/
theorem shouldAdd_fuzzy_disabled_spec_witness :
    (pyIn alibabaConfig.domain_check
        "https://www.alibaba.com/product-detail/acme-shoes".toList = true ∧
      (alibabaConfig.brand_in_url = true →
        (shouldAdd false 80 alibabaConfig "Acme".toList
            ⟨some "https://www.alibaba.com/product-detail/acme-shoes".toList,
              [], none, none⟩
            "https://www.alibaba.com/product-detail/acme-shoes".toList = true ↔
          pyIn (lower "Acme".toList)
            (lower "https://www.alibaba.com/product-detail/acme-shoes".toList) =
            true))) ∧
    (pyIn dhgateConfig.domain_check
        "https://www.dhgate.com/product/1".toList = true ∧
      (dhgateConfig.brand_in_url = false →
        shouldAdd false 80 dhgateConfig "Acme".toList
          ⟨some "https://www.dhgate.com/product/1".toList,
            "Globex widget".toList, none, none⟩
          "https://www.dhgate.com/product/1".toList = true)) :=
  ⟨⟨by decide,
    (shouldAdd_fuzzy_disabled_spec 80 alibabaConfig "Acme".toList
      ⟨some "https://www.alibaba.com/product-detail/acme-shoes".toList,
        [], none, none⟩
      "https://www.alibaba.com/product-detail/acme-shoes".toList
      (by decide)).1⟩,
   ⟨by decide,
    (shouldAdd_fuzzy_disabled_spec 80 dhgateConfig "Acme".toList
      ⟨some "https://www.dhgate.com/product/1".toList,
        "Globex widget".toList, none, none⟩
      "https://www.dhgate.com/product/1".toList
      (by decide)).2⟩⟩

/-- Helper: inserting into the modelled set grows it by at most one. -/
theorem addSet_length_le (s : List (List Char)) (x : List Char) :
    (addSet s x).length ≤ s.length + 1 := by
  unfold addSet
  split
  · exact Nat.le_succ _
  · simp

/-- Helper: members of the modelled set after insertion. -/
theorem mem_addSet {s : List (List Char)} {x y : List Char}
    (h : y ∈ addSet s x) : y ∈ s ∨ y = x := by
  unfold addSet at h
  split at h
  · exact Or.inl h
  · rcases List.mem_append.mp h with h' | h'
    · exact Or.inl h'
    · exact Or.inr (List.mem_singleton.mp h')

/-- Helper: the candidate loop never lets the set grow beyond `cap`,
provided it enters with fewer than `cap` collected hrefs. -/
theorem collectLinks_length_le (e : Bool) (t : Nat) (cfg : SiteConfig)
    (brand : List Char) (cap : Nat) :
    ∀ (cands : List Candidate) (s : List (List Char)), s.length < cap →
      (collectLinks e t cfg brand cap cands s).length ≤ cap := by
  intro cands
  induction cands with
  | nil => intro s h; exact le_of_lt h
  | cons c rest ih =>
    intro s h
    match hh : c.href with
    | none => simp only [collectLinks, hh]; exact ih s h
    | some href =>
      simp only [collectLinks, hh]
      by_cases hd : (!href.isEmpty && pyIn cfg.domain_check href) = true
      · rw [if_pos hd]
        have hstep : ∀ s' : List (List Char), s'.length ≤ cap →
            (if cap ≤ s'.length then s'
              else collectLinks e t cfg brand cap rest s').length ≤ cap := by
          intro s' hle
          by_cases hc : cap ≤ s'.length
          · rw [if_pos hc]; exact hle
          · rw [if_neg hc]; exact ih _ (Nat.lt_of_not_le hc)
        apply hstep
        split
        · exact le_trans (addSet_length_le s href) h
        · exact le_of_lt h
      · rw [if_neg hd]; exact ih s h

/-- C6: for every candidate sequence and every configured cap (the UI
allows 1–50), the per-task set of accepted hrefs has at most `cap`
elements, and the task emits at most `cap` output rows. -/
theorem task_links_le_cap (e : Bool) (t cap : Nat) (cfg : SiteConfig)
    (brand keyword now : List Char) (cands : List Candidate)
    (pg : Except (List Char) (List Char → List Candidate))
    (hcap : 1 ≤ cap) :
    (collectLinks e t cfg brand cap cands []).length ≤ cap ∧
      (runTask pg e t cap cfg brand keyword now).1.length ≤ cap := by
  have base : ∀ cs : List Candidate,
      (collectLinks e t cfg brand cap cs []).length ≤ cap := fun cs =>
    collectLinks_length_le e t cfg brand cap cs [] (by simpa using hcap)
  refine ⟨base cands, ?_⟩
  match pg with
  | .error err => simp [runTask]
  | .ok page => simpa [runTask] using base (extractLinks page cfg)

/-- Witness for C6 at a concrete input: cap 1, two qualifying DHgate
candidates, fuzzy disabled. -/
theorem task_links_le_cap_witness :
    (1 : Nat) ≤ 1 ∧
      ((collectLinks false 80 dhgateConfig "Acme".toList 1
          [⟨some "https://www.dhgate.com/product/1".toList, [], none, none⟩,
            ⟨some "https://www.dhgate.com/product/2".toList, [], none, none⟩]
          []).length ≤ 1 ∧
        (runTask (.ok fun _ =>
            [⟨some "https://www.dhgate.com/product/1".toList, [], none, none⟩,
              ⟨some "https://www.dhgate.com/product/2".toList, [], none, none⟩])
          false 80 1 dhgateConfig "Acme".toList "shoes".toList "ts".toList).1.length
          ≤ 1) :=
  ⟨by decide,
    task_links_le_cap false 80 1 dhgateConfig "Acme".toList "shoes".toList
      "ts".toList
      [⟨some "https://www.dhgate.com/product/1".toList, [], none, none⟩,
        ⟨some "https://www.dhgate.com/product/2".toList, [], none, none⟩]
      (.ok fun _ =>
        [⟨some "https://www.dhgate.com/product/1".toList, [], none, none⟩,
          ⟨some "https://www.dhgate.com/product/2".toList, [], none, none⟩])
      (by decide)⟩

/-- C7: the fallback selectors are consulted only when the primary
selector yields no elements; in that case every fallback is queried and
all results concatenated in order; when the primary yields at least one
element the result is exactly the primary's. -/
theorem extract_fallback_union (page : List Char → List Candidate)
    (cfg : SiteConfig) :
    (page cfg.product_selector = [] → cfg.additional_selectors ≠ [] →
      extractLinks page cfg = (cfg.additional_selectors.map page).flatten) ∧
    (page cfg.product_selector ≠ [] →
      extractLinks page cfg = page cfg.product_selector) := by
  constructor
  · intro h1 h2
    simp [extractLinks, h1, h2]
  · intro h1
    simp [extractLinks, h1]

/-- Witness for C7 at a concrete input: a page empty on the
Made-in-China primary selector but nonempty on each of its three
fallbacks yields the three fallback results concatenated. -/
theorem extract_fallback_union_witness :
    extractLinks
        (fun sel => if sel = madeInChinaConfig.product_selector then []
          else [⟨some sel, [], none, none⟩])
        madeInChinaConfig =
      (madeInChinaConfig.additional_selectors.map
        (fun sel => if sel = madeInChinaConfig.product_selector then []
          else [⟨some sel, [], none, none⟩])).flatten :=
  (extract_fallback_union
    (fun sel => if sel = madeInChinaConfig.product_selector then []
      else [⟨some sel, [], none, none⟩])
    madeInChinaConfig).1 (by decide) (by decide)

/-- C8: when the browser interaction for one task fails, the task is
reported as one warning, contributes no rows to the accumulated results,
and the site loop continues with the remaining sites exactly as if the
failed task had never produced anything. -/
theorem task_error_swallowed (exec : PageOracle) (e : Bool) (t cap : Nat)
    (brand keyword now err : List Char) (cfg : SiteConfig)
    (rest : List SiteConfig)
    (acc : List MatchResult × List (List Char × List Char))
    (h : exec cfg.name brand keyword = .error err) :
    scrapeSites exec e t cap brand keyword now (cfg :: rest) acc =
      scrapeSites exec e t cap brand keyword now rest
        (acc.1, acc.2 ++ [(cfg.name, err)]) := by
  simp [scrapeSites, runTask, h]

/-- Witness for C8 at a concrete input: an oracle that always fails makes
the Alibaba task contribute one warning and no rows, and the loop
proceeds to the remaining (empty) site list. -/
theorem task_error_swallowed_witness :
    scrapeSites (fun _ _ _ => .error "boom".toList) true 80 12 "Acme".toList
        "shoes".toList "ts".toList [alibabaConfig] ([], []) =
      scrapeSites (fun _ _ _ => .error "boom".toList) true 80 12 "Acme".toList
        "shoes".toList "ts".toList []
        (([] : List MatchResult),
          ([] : List (List Char × List Char)) ++
            [(alibabaConfig.name, "boom".toList)]) :=
  task_error_swallowed (fun _ _ _ => .error "boom".toList) true 80 12
    "Acme".toList "shoes".toList "ts".toList "boom".toList alibabaConfig []
    ([], []) rfl

/-- Helper: every href in the collected set was already there or passed
the domain filter (nonempty href containing the domain substring). -/
theorem collectLinks_mem (e : Bool) (t : Nat) (cfg : SiteConfig)
    (brand : List Char) (cap : Nat) :
    ∀ (cands : List Candidate) (s : List (List Char)) (x : List Char),
      x ∈ collectLinks e t cfg brand cap cands s →
      x ∈ s ∨ pyIn cfg.domain_check x = true := by
  intro cands
  induction cands with
  | nil => intro s x hx; exact Or.inl hx
  | cons c rest ih =>
    intro s x hx
    match hh : c.href with
    | none =>
      simp only [collectLinks, hh] at hx
      exact ih s x hx
    | some href =>
      simp only [collectLinks, hh] at hx
      by_cases hd : (!href.isEmpty && pyIn cfg.domain_check href) = true
      · rw [if_pos hd] at hx
        have hdom : pyIn cfg.domain_check href = true :=
          (Bool.and_eq_true _ _ |>.mp hd).2
        have hstep : ∀ s' : List (List Char),
            (∀ y, y ∈ s' → y ∈ s ∨ pyIn cfg.domain_check y = true) →
            x ∈ (if cap ≤ s'.length then s'
              else collectLinks e t cfg brand cap rest s') →
            x ∈ s ∨ pyIn cfg.domain_check x = true := by
          intro s' hys hx'
          split at hx'
          · exact hys x hx'
          · rcases ih s' x hx' with h' | h'
            · exact hys x h'
            · exact Or.inr h'
        refine hstep _ ?_ hx
        intro y hy
        split at hy
        · rcases mem_addSet hy with h' | h'
          · exact Or.inl h'
          · exact Or.inr (h' ▸ hdom)
        · exact Or.inl hy
      · rw [if_neg hd] at hx
        exact ih s x hx

/-- Helper: every row a task emits carries the task's site name and an
href that contains the site's domain-check substring. -/
theorem runTask_mem (pg : Except (List Char) (List Char → List Candidate))
    (e : Bool) (t cap : Nat) (cfg : SiteConfig) (brand keyword now : List Char)
    (r : MatchResult) (hr : r ∈ (runTask pg e t cap cfg brand keyword now).1) :
    r.site = cfg.name ∧ pyIn cfg.domain_check r.productURL = true := by
  match pg with
  | .error err => simp [runTask] at hr
  | .ok page =>
    simp only [runTask, List.mem_map] at hr
    obtain ⟨h, hmem, rfl⟩ := hr
    refine ⟨rfl, ?_⟩
    rcases collectLinks_mem e t cfg brand cap (extractLinks page cfg) [] h hmem
      with h' | h'
    · exact absurd h' (List.not_mem_nil h)
    · exact h'

/-- Helper: rows accumulated by the site loop are either already in the
accumulator or stamped by one of the sites in the list. -/
theorem scrapeSites_mem (exec : PageOracle) (e : Bool) (t cap : Nat)
    (brand keyword now : List Char) :
    ∀ (sitesL : List SiteConfig)
      (acc : List MatchResult × List (List Char × List Char)) (r : MatchResult),
      r ∈ (scrapeSites exec e t cap brand keyword now sitesL acc).1 →
      r ∈ acc.1 ∨ ∃ cfg ∈ sitesL, r.site = cfg.name ∧
        pyIn cfg.domain_check r.productURL = true := by
  intro sitesL
  induction sitesL with
  | nil => intro acc r hr; exact Or.inl hr
  | cons cfg rest ih =>
    intro acc r hr
    rw [scrapeSites] at hr
    rcases ih _ r hr with h' | ⟨cfg', hmem, hprop⟩
    · rcases List.mem_append.mp h' with h'' | h''
      · exact Or.inl h''
      · exact Or.inr ⟨cfg, List.mem_cons_self cfg rest,
          runTask_mem _ e t cap cfg brand keyword now r h''⟩
    · exact Or.inr ⟨cfg', List.mem_cons_of_mem cfg hmem, hprop⟩

/-- Helper: the keyword loop preserves the same row invariant. -/
theorem scrapeKeywords_mem (exec : PageOracle) (e : Bool) (t cap : Nat)
    (brand now : List Char) (sites : List SiteConfig) :
    ∀ (kws : List (List Char))
      (acc : List MatchResult × List (List Char × List Char)) (r : MatchResult),
      r ∈ (scrapeKeywords exec e t cap brand now sites kws acc).1 →
      r ∈ acc.1 ∨ ∃ cfg ∈ sites, r.site = cfg.name ∧
        pyIn cfg.domain_check r.productURL = true := by
  intro kws
  induction kws with
  | nil => intro acc r hr; exact Or.inl hr
  | cons kw rest ih =>
    intro acc r hr
    rw [scrapeKeywords] at hr
    rcases ih _ r hr with h' | h'
    · exact scrapeSites_mem exec e t cap brand kw now sites acc r h'
    · exact Or.inr h'

/-- Helper: the brand loop preserves the same row invariant. -/
theorem scrapeRows_mem (exec : PageOracle) (e : Bool) (t cap : Nat)
    (now : List Char) (sites : List SiteConfig) :
    ∀ (rows : List InputRow)
      (acc : List MatchResult × List (List Char × List Char)) (r : MatchResult),
      r ∈ (scrapeRows exec e t cap now sites rows acc).1 →
      r ∈ acc.1 ∨ ∃ cfg ∈ sites, r.site = cfg.name ∧
        pyIn cfg.domain_check r.productURL = true := by
  intro rows
  induction rows with
  | nil => intro acc r hr; exact Or.inl hr
  | cons row rest ih =>
    intro acc r hr
    rw [scrapeRows] at hr
    rcases ih _ r hr with h' | h'
    · exact scrapeKeywords_mem exec e t cap row.brand now sites
        (rowKeywords row) acc r h'
    · exact Or.inr h'

/-- C9: every row of the final result table is stamped with the name of
one of the active sites, and its product URL contains that site's
domain-check substring. -/
theorem result_rows_domain (exec : PageOracle) (e : Bool) (t cap : Nat)
    (now : List Char) (sites : List SiteConfig) (rows : List InputRow)
    (r : MatchResult) (hr : r ∈ runScraper exec e t cap now sites rows) :
    ∃ cfg ∈ sites, r.site = cfg.name ∧
      pyIn cfg.domain_check r.productURL = true := by
  rcases scrapeRows_mem exec e t cap now sites rows ([], []) r hr with h' | h'
  · exact absurd h' (List.not_mem_nil r)
  · exact h'

/-- Witness for C9 at a concrete input: a one-row, one-keyword, one-site
run whose page yields one DHgate link produces exactly that row, and the
row carries the DHgate name and domain. -/
theorem result_rows_domain_witness :
    (⟨"acme".toList, "shoes".toList, "DHgate".toList,
        "https://www.dhgate.com/product/1".toList, "ts".toList⟩ : MatchResult) ∈
      runScraper
        (fun _ _ _ => .ok fun _ =>
          [⟨some "https://www.dhgate.com/product/1".toList, [], none, none⟩])
        false 80 5 "ts".toList [dhgateConfig]
        [⟨"acme".toList, [some "shoes".toList]⟩] ∧
    ∃ cfg ∈ [dhgateConfig], "DHgate".toList = cfg.name ∧
      pyIn cfg.domain_check "https://www.dhgate.com/product/1".toList = true :=
  ⟨by decide,
    result_rows_domain
      (fun _ _ _ => .ok fun _ =>
        [⟨some "https://www.dhgate.com/product/1".toList, [], none, none⟩])
      false 80 5 "ts".toList [dhgateConfig]
      [⟨"acme".toList, [some "shoes".toList]⟩]
      ⟨"acme".toList, "shoes".toList, "DHgate".toList,
        "https://www.dhgate.com/product/1".toList, "ts".toList⟩
      (by decide)⟩

/-- C2 counterexample: one brand row with one present and one missing
keyword cell, two keyword columns, one active site. The code's
denominator is `1 * 2 * 1 = 2`, the spec's skipping count is `1`, only
one task executes, and the progress fraction reported on that last task
is `1/2`, not `1.0`. -/
theorem taskCount_progress_cex :
    total_operations [⟨"b".toList, [some "k".toList, none]⟩] 2 1 = 2 ∧
      specTaskCount [⟨"b".toList, [some "k".toList, none]⟩] 1 = 1 ∧
      executedTasks [⟨"b".toList, [some "k".toList, none]⟩] 1 = 1 ∧
      finalProgress [⟨"b".toList, [some "k".toList, none]⟩] 2 1 ≠ 1 := by
  refine ⟨by decide, by decide, by decide, ?_⟩
  have h1 : executedTasks [⟨"b".toList, [some "k".toList, none]⟩] 1 = 1 := by
    decide
  have h2 : total_operations [⟨"b".toList, [some "k".toList, none]⟩] 2 1 = 2 := by
    decide
  rw [finalProgress, h1, h2]
  norm_num

/-- Helper: `filterMap id` preserves the length exactly when every
optional cell is present. -/
theorem filterMap_id_length_iff :
    ∀ cells : List (Option (List Char)),
      ((cells.filterMap id).length = cells.length ↔
        ∀ c ∈ cells, c.isSome = true) := by
  intro cells
  induction cells with
  | nil => simp
  | cons c rest ih =>
    match c with
    | none =>
      have hfm : (none :: rest).filterMap
          (id : Option (List Char) → Option (List Char)) =
          rest.filterMap id := by simp
      rw [hfm, List.length_cons]
      constructor
      · intro h'
        exfalso
        have hle :=
          List.length_filterMap_le (id : Option (List Char) → Option (List Char))
            rest
        omega
      · intro h'
        exact absurd (h' none (List.mem_cons_self none rest)) (by simp)
    | some v =>
      have hfm : (some v :: rest).filterMap
          (id : Option (List Char) → Option (List Char)) =
          v :: rest.filterMap id := by simp
      rw [hfm, List.length_cons, List.length_cons, List.forall_mem_cons]
      simp only [Option.isSome_some, true_and]
      rw [← ih]
      omega

/-- Helper: a row never yields more keywords than it has keyword cells. -/
theorem rowKeywords_length_le (r : InputRow) :
    (rowKeywords r).length ≤ r.cells.length := by
  rw [rowKeywords]
  exact List.length_filterMap_le id r.cells

/-- Helper: with one cell per keyword column in every row, the final
`current_operation` never exceeds `|rows| * ncols * nsites`. -/
theorem executedTasks_le (nsites ncols : Nat) :
    ∀ rows : List InputRow, (∀ r ∈ rows, r.cells.length = ncols) →
      executedTasks rows nsites ≤ rows.length * ncols * nsites := by
  intro rows
  induction rows with
  | nil => intro _; simp [executedTasks]
  | cons r rest ih =>
    intro h
    have hr : r.cells.length = ncols := h r (List.mem_cons_self r rest)
    have hrest := ih fun r' hr' => h r' (List.mem_cons_of_mem r hr')
    simp only [executedTasks, List.map_cons, List.sum_cons] at hrest ⊢
    have h1 : (rowKeywords r).length * nsites ≤ ncols * nsites :=
      Nat.mul_le_mul_right nsites (le_of_le_of_eq (rowKeywords_length_le r) hr)
    have hexp : (r :: rest).length * ncols * nsites =
        ncols * nsites + rest.length * ncols * nsites := by
      rw [List.length_cons]; ring
    rw [hexp]
    exact Nat.add_le_add h1 hrest

/-- Helper: two sums below their bounds agree with the bounds exactly
when each summand does. -/
theorem add_eq_add_iff_of_le {a b c d : Nat} (h1 : a ≤ c) (h2 : b ≤ d) :
    a + b = c + d ↔ a = c ∧ b = d := by omega

/-- Helper: with one cell per keyword column in every row and at least
one site, the final `current_operation` reaches the denominator exactly
when every keyword cell is present. -/
theorem executedTasks_eq_iff (nsites ncols : Nat) (hsites : 0 < nsites) :
    ∀ rows : List InputRow, (∀ r ∈ rows, r.cells.length = ncols) →
      (executedTasks rows nsites = rows.length * ncols * nsites ↔
        ∀ r ∈ rows, ∀ c ∈ r.cells, c.isSome = true) := by
  intro rows
  induction rows with
  | nil => intro _; simp [executedTasks]
  | cons r rest ih =>
    intro h
    have hr : r.cells.length = ncols := h r (List.mem_cons_self r rest)
    have hrest := ih fun r' hr' => h r' (List.mem_cons_of_mem r hr')
    have h1 : (rowKeywords r).length * nsites ≤ ncols * nsites :=
      Nat.mul_le_mul_right nsites (le_of_le_of_eq (rowKeywords_length_le r) hr)
    have h2 : executedTasks rest nsites ≤ rest.length * ncols * nsites :=
      executedTasks_le nsites ncols rest
        fun r' hr' => h r' (List.mem_cons_of_mem r hr')
    simp only [executedTasks, List.map_cons, List.sum_cons] at hrest h2 ⊢
    have hexp : (r :: rest).length * ncols * nsites =
        ncols * nsites + rest.length * ncols * nsites := by
      rw [List.length_cons]; ring
    rw [hexp, add_eq_add_iff_of_le h1 h2, List.forall_mem_cons]
    apply and_congr
    · constructor
      · intro h'
        have hkw : (rowKeywords r).length = ncols :=
          Nat.eq_of_mul_eq_mul_right hsites h'
        exact (filterMap_id_length_iff r.cells).mp
          (by simpa [rowKeywords] using hkw.trans hr.symm)
      · intro h'
        have hkw : (rowKeywords r).length = r.cells.length := by
          simpa [rowKeywords] using (filterMap_id_length_iff r.cells).mpr h'
        rw [hkw, hr]
    · exact hrest

/-- C2 as amended: the denominator is the number of input rows times the
number of keyword columns times the number of active sites (missing
cells and keyword-less brands are NOT skipped in the denominator); with
at least one row, one keyword column and one active site, and one cell
per keyword column in every row, the progress fraction reported on the
last executed task is at most `1.0`, equals `1.0` exactly when every
keyword cell is present — in which case the executed-task count equals
the denominator — and is strictly below `1.0` whenever any keyword cell
is missing. -/
theorem taskCount_progress_amended (rows : List InputRow) (ncols nsites : Nat)
    (hlen : ∀ r ∈ rows, r.cells.length = ncols)
    (hrows : rows ≠ []) (hcols : 0 < ncols) (hsites : 0 < nsites) :
    finalProgress rows ncols nsites ≤ 1 ∧
    (finalProgress rows ncols nsites = 1 ↔
      ∀ r ∈ rows, ∀ c ∈ r.cells, c.isSome = true) ∧
    ((∀ r ∈ rows, ∀ c ∈ r.cells, c.isSome = true) →
      executedTasks rows nsites = total_operations rows ncols nsites) ∧
    ((¬ ∀ r ∈ rows, ∀ c ∈ r.cells, c.isSome = true) →
      finalProgress rows ncols nsites < 1) := by
  have hpos : 0 < rows.length * ncols * nsites :=
    Nat.mul_pos (Nat.mul_pos (List.length_pos.mpr hrows) hcols) hsites
  have htpos : (0 : ℚ) < (total_operations rows ncols nsites : ℚ) := by
    rw [total_operations]; exact_mod_cast hpos
  have hle : executedTasks rows nsites ≤ total_operations rows ncols nsites :=
    executedTasks_le nsites ncols rows hlen
  have hfle : finalProgress rows ncols nsites ≤ 1 := by
    rw [finalProgress, div_le_one htpos]
    exact_mod_cast hle
  have hiff : finalProgress rows ncols nsites = 1 ↔
      ∀ r ∈ rows, ∀ c ∈ r.cells, c.isSome = true := by
    rw [finalProgress, div_eq_one_iff_eq (ne_of_gt htpos), Nat.cast_inj,
      total_operations]
    exact executedTasks_eq_iff nsites ncols hsites rows hlen
  refine ⟨hfle, hiff, ?_, ?_⟩
  · intro hall
    rw [total_operations]
    exact (executedTasks_eq_iff nsites ncols hsites rows hlen).mpr hall
  · intro hmiss
    exact lt_of_le_of_ne hfle fun h' => hmiss (hiff.mp h')

/-- Witness for C2-as-amended at a concrete input: one row, one present
keyword cell, one site; the fraction on the last (only) task is at most
`1.0`, and equals `1.0` exactly because every cell is present. -/
theorem taskCount_progress_amended_witness :
    ((∀ r ∈ ([⟨"b".toList, [some "k".toList]⟩] : List InputRow),
        r.cells.length = 1) ∧
      ([⟨"b".toList, [some "k".toList]⟩] : List InputRow) ≠ [] ∧
      (0 : Nat) < 1) ∧
    (finalProgress [⟨"b".toList, [some "k".toList]⟩] 1 1 ≤ 1 ∧
      (finalProgress [⟨"b".toList, [some "k".toList]⟩] 1 1 = 1 ↔
        ∀ r ∈ ([⟨"b".toList, [some "k".toList]⟩] : List InputRow),
          ∀ c ∈ r.cells, c.isSome = true) ∧
      ((∀ r ∈ ([⟨"b".toList, [some "k".toList]⟩] : List InputRow),
          ∀ c ∈ r.cells, c.isSome = true) →
        executedTasks [⟨"b".toList, [some "k".toList]⟩] 1 =
          total_operations [⟨"b".toList, [some "k".toList]⟩] 1 1) ∧
      ((¬ ∀ r ∈ ([⟨"b".toList, [some "k".toList]⟩] : List InputRow),
          ∀ c ∈ r.cells, c.isSome = true) →
        finalProgress [⟨"b".toList, [some "k".toList]⟩] 1 1 < 1)) :=
  ⟨⟨by decide, by decide, by decide⟩,
    taskCount_progress_amended [⟨"b".toList, [some "k".toList]⟩] 1 1
      (by decide) (by decide) (by decide) (by decide)⟩

end Scraper
